import Mathlib

/-!
# go-mbuild-release: a verification development

A shallow embedding of the Go sources of `go-mbuild-release` (packages
`versioning`, `builder`, `github` and `cmd/mbuild-release`) and theorems about it.

Conventions of the embedding.

* A Go `string` the program receives is a Lean `String`, read as its sequence
  of characters (`String.data`).  Go slices strings by byte: a slice that need
  not end on a character boundary (`sha[:7]`) yields a `GoString`, the bytes of
  the value; `in[1:]` after a matched `v` drops that one-byte character.
* A Go function returning `(T, error)` returns a `GoRet T`: the pair of the
  value and the optional error, or a run-time panic.
* A Go `error` is carried as its message.
* Library code that is not part of the repository (the regular expression
  engine, the git object store, the file system, the external compiler) is
  either modelled by its documented behaviour on exactly the constructs the
  program uses, or taken as a parameter.
-/

namespace MBuild

/-! ## Go values -/

/-- A Go `error` value, carried as its message. -/
structure GoError where
  msg : String
  deriving DecidableEq, Repr

/-- The UTF-8 encoding of one character, as byte values. -/
def utf8EncodeChar (c : Char) : List Nat :=
  let v := c.toNat
  if v < 0x80 then [v]
  else if v < 0x800 then [0xc0 + v / 0x40, 0x80 + v % 0x40]
  else if v < 0x10000 then [0xe0 + v / 0x1000, 0x80 + v / 0x40 % 0x40, 0x80 + v % 0x40]
  else [0xf0 + v / 0x40000, 0x80 + v / 0x1000 % 0x40, 0x80 + v / 0x40 % 0x40,
        0x80 + v % 0x40]

/-- A Go `string` value given by its bytes; it need not be valid UTF-8. -/
structure GoString where
  bytes : List Nat
  deriving DecidableEq, Repr

/-- The Go string holding the UTF-8 encoding of `s`. -/
def GoString.ofString (s : String) : GoString :=
  ⟨s.data.flatMap utf8EncodeChar⟩

instance : Coe String GoString := ⟨GoString.ofString⟩

/-- Go string concatenation. -/
instance : Append GoString := ⟨fun a b => ⟨a.bytes ++ b.bytes⟩⟩

/-- The outcome of calling a Go function of result type `(T, error)`: either it
returns the pair, or it panics. -/
inductive GoRet (α : Type) where
  | ret (val : α) (err : Option GoError)
  | panic (msg : String)
  deriving DecidableEq, Repr

/-! ## Package `regexp`: the fragment used by the program

Go's `regexp` finds the leftmost match and, among the matches starting there,
the one a backtracking engine would find first (leftmost-first semantics).
`RE.run` is that backtracking search in continuation-passing style for the
constructs occurring in the two patterns of the program. -/

/-- Single-character classes. -/
inductive CharClass where
  /-- a literal character -/
  | lit (c : Char)
  /-- `.` : any character except a line feed (no `s` flag) -/
  | dot
  /-- `\d` : ASCII decimal digit -/
  | digit
  deriving DecidableEq, Repr

/-- Whether class `k` accepts character `c`. -/
def CharClass.test : CharClass → Char → Bool
  | .lit a, c => c == a
  | .dot, c => c != '\n'
  | .digit, c => decide ('0' ≤ c ∧ c ≤ '9')

/-- Regular expressions restricted to the constructs of `^v\d` and
`(.+?)/(.+?)(/(.+))?$`. -/
inductive RE where
  /-- one character of a class -/
  | cls (k : CharClass)
  /-- `^` : beginning of text -/
  | bot
  /-- `$` : end of text (no `m` flag) -/
  | eot
  /-- concatenation -/
  | seq (a b : RE)
  /-- capturing group number `i` -/
  | group (i : Nat) (r : RE)
  /-- `r?` : greedy option -/
  | opt (r : RE)
  /-- `k+?` : one or more, preferring fewer -/
  | plusLazy (k : CharClass)
  /-- `k+` : one or more, preferring more -/
  | plusGreedy (k : CharClass)
  deriving Repr

/-- A position of the matcher: characters consumed so far, the remaining text,
and the capture registers as `(group, start, end)`, most recent first. -/
structure MState where
  pos : Nat
  rest : List Char
  caps : List (Nat × Nat × Nat)
  deriving DecidableEq, Repr

/-- Lazy repetition `k+?` : consume one character, then prefer continuing with
`cont` over consuming more. -/
def lazyLoop (k : CharClass) (cont : MState → Option MState) :
    Nat → List Char → List (Nat × Nat × Nat) → Option MState
  | _, [], _ => none
  | pos, c :: t, caps =>
    if k.test c then
      match cont ⟨pos + 1, t, caps⟩ with
      | some r => some r
      | none => lazyLoop k cont (pos + 1) t caps
    else none

/-- Greedy repetition `k+` : consume one character, then prefer consuming more
over continuing with `cont`. -/
def greedyLoop (k : CharClass) (cont : MState → Option MState) :
    Nat → List Char → List (Nat × Nat × Nat) → Option MState
  | _, [], _ => none
  | pos, c :: t, caps =>
    if k.test c then
      match greedyLoop k cont (pos + 1) t caps with
      | some r => some r
      | none => cont ⟨pos + 1, t, caps⟩
    else none

/-- Backtracking match of `r` at state `s`, continuing with `cont`; the result is
the first complete match in priority order. -/
def RE.run : RE → MState → (MState → Option MState) → Option MState
  | .cls k, s, cont =>
    match s.rest with
    | [] => none
    | c :: t => if k.test c then cont ⟨s.pos + 1, t, s.caps⟩ else none
  | .bot, s, cont => if s.pos = 0 then cont s else none
  | .eot, s, cont => if s.rest = [] then cont s else none
  | .seq a b, s, cont => a.run s (fun s1 => b.run s1 cont)
  | .group i r, s, cont =>
    r.run s (fun s1 => cont ⟨s1.pos, s1.rest, (i, s.pos, s1.pos) :: s1.caps⟩)
  | .opt r, s, cont =>
    match r.run s cont with
    | some res => some res
    | none => cont s
  | .plusLazy k, s, cont => lazyLoop k cont s.pos s.rest s.caps
  | .plusGreedy k, s, cont => greedyLoop k cont s.pos s.rest s.caps

/-- Unanchored search: try to match at `pos`, then at each later start position;
the answer is the start position and the final matcher state. -/
def RE.searchFrom (r : RE) : Nat → List Char → Option (Nat × MState)
  | pos, [] =>
    match r.run ⟨pos, [], []⟩ some with
    | some s => some (pos, s)
    | none => none
  | pos, c :: t =>
    match r.run ⟨pos, c :: t, []⟩ some with
    | some s => some (pos, s)
    | none => RE.searchFrom r (pos + 1) t

/-- The text of capture group `i`: the most recent register for `i`, or the empty
string when the group did not take part in the match. -/
def captureText (text : List Char) (caps : List (Nat × Nat × Nat)) (i : Nat) : String :=
  match caps.find? (fun e => e.1 == i) with
  | some (_, b, e) => ⟨(text.drop b).take (e - b)⟩
  | none => ""

/-- Go `(*Regexp).MatchString`. -/
def RE.MatchString (r : RE) (s : String) : Bool :=
  (r.searchFrom 0 s.data).isSome

/-- Go `(*Regexp).FindStringSubmatch` for a pattern with `n` capture groups: the
empty (nil) slice when there is no match, otherwise the `n + 1` strings of the
whole match and of groups `1..n`. -/
def RE.FindStringSubmatch (r : RE) (n : Nat) (s : String) : List String :=
  match r.searchFrom 0 s.data with
  | none => []
  | some (start, fin) =>
    (⟨(s.data.drop start).take (fin.pos - start)⟩ : String) ::
      (List.range n).map (fun i => captureText s.data fin.caps (i + 1))

/-! ## Package `versioning`: `versioning.go` -/

namespace versioning

/-- The pattern `^v\d` . -/
def vPrefix : RE := .seq .bot (.seq (.cls (.lit 'v')) (.cls .digit))

/-- Go `Normalize`: `in[1:]` when `vPrefix` matches, `in` otherwise. -/
def Normalize (s : String) : String :=
  if RE.MatchString vPrefix s then ⟨s.data.drop 1⟩ else s

/-- Go `ShortenSha`: `sha[:7]`, the first 7 bytes of `sha`; it panics (`none`) when
`sha` has fewer than 7 bytes. -/
def ShortenSha (sha : String) : Option GoString :=
  if 7 ≤ (GoString.ofString sha).bytes.length then
    some ⟨(GoString.ofString sha).bytes.take 7⟩
  else none

/-! ### The git object model used by `git.go` (library `go-git`) -/

/-- Library type `plumbing.Hash`: a SHA-1 digest, 20 bytes. -/
structure Hash where
  bytes : List (Fin 256)
  len : bytes.length = 20
  deriving DecidableEq

/-- One lowercase hexadecimal digit. -/
def hexDigit (n : Nat) : Char :=
  "0123456789abcdef".data.getD n '0'

/-- Library method `Hash.String`: the lowercase hexadecimal encoding. -/
def Hash.str (h : Hash) : String :=
  ⟨h.bytes.flatMap (fun b => [hexDigit (b.val / 16), hexDigit (b.val % 16)])⟩

/-- Library type `plumbing.ReferenceType`. -/
inductive ReferenceType where
  | InvalidReference
  | HashReference
  | SymbolicReference
  deriving DecidableEq, Repr

/-- Library type `plumbing.Reference`, reduced to what `GetVersion` reads:
`Type()`, `Hash()` and `Name().Short()`. -/
structure Reference where
  type : ReferenceType
  hash : Hash
  short : String
  deriving DecidableEq

/-- Library type `object.Commit`, reduced to its hash. -/
structure Commit where
  hash : Hash
  deriving DecidableEq

/-- One answer of `CommitIter.Next`: the commit pointer (nil as `none`) and the
error. -/
abbrev NextResult := Option Commit × Option GoError

/-- Library type `git.Repository` as `GetVersion` observes it.

* `tags` : the result of `repo.Tags()`, the references the iterator yields;
* `tagsIterErr` : the error `ForEach` reports from the iteration itself, if any
  (the callback of `GetVersion` never returns one);
* `head` : the result of `repo.Head()`;
* `log` : the result of `repo.Log`, as the successive answers of `Next`; once
  they are used up `Next` answers `(nil, io.EOF)`;
* `tagObject h` : the commit that the annotated tag object with hash `h` points
  at, `none` when `h` is not the hash of a tag object (`repo.TagObject`, which
  `GetVersion` never calls).  The reference of an annotated tag holds the hash
  of its tag object, the reference of a lightweight tag the hash of the commit. -/
structure Repository where
  tags : Except GoError (List Reference)
  tagsIterErr : Option GoError
  head : Except GoError Reference
  log : Except GoError (List NextResult)
  tagObject : Hash → Option Hash

/-- Go `GitVersioning`. -/
structure GitVersioning where
  repo : Repository

/-- A Go `map[plumbing.Hash]string`. -/
abbrev TagMap := Hash → Option String

/-- The map assignment `m[k] = v`. -/
def TagMap.set (m : TagMap) (k : Hash) (v : String) : TagMap :=
  fun h => if h = k then some v else m h

/-- The `ForEach` callback of `GetVersion`, folded over the tag references in
iteration order, starting from the empty map. -/
def collectTags (refs : List Reference) : TagMap :=
  refs.foldl
    (fun m ref => if ref.type = .HashReference then m.set ref.hash ref.short else m)
    (fun _ => none)

/-- The `for` loop of Go `deriveRelativeVersion`, over the answers of `Next` that
are still to come, with the current value of `distance`. -/
def deriveLoop (hashToTag : TagMap) (headHash : Hash) :
    List NextResult → Nat → GoRet GoString
  | [], _ =>
    -- Next answers (nil, io.EOF): c == nil
    match ShortenSha headHash.str with
    | some short => .ret short none
    | none => .panic "slice bounds out of range"
  | (none, _) :: _, _ =>
    match ShortenSha headHash.str with
    | some short => .ret short none
    | none => .panic "slice bounds out of range"
  | (some _, some err) :: _, _ =>
    .ret (GoString.ofString "") (some ⟨"failed to get next commit: " ++ err.msg⟩)
  | (some c, none) :: more, distance =>
    match hashToTag c.hash with
    | some tag =>
      match ShortenSha headHash.str with
      | some short =>
        .ret (GoString.ofString (tag ++ "-" ++ toString distance ++ "-") ++ short) none
      | none => .panic "slice bounds out of range"
    | none => deriveLoop hashToTag headHash more (distance + 1)

/-- Go `(*GitVersioning).deriveRelativeVersion`. -/
def GitVersioning.deriveRelativeVersion (gv : GitVersioning) (hashToTag : TagMap)
    (headHash : Hash) : GoRet GoString :=
  match gv.repo.log with
  | .error err =>
    .ret (GoString.ofString "") (some ⟨"failed to get commit log: " ++ err.msg⟩)
  | .ok answers => deriveLoop hashToTag headHash answers 0

/-- Go `(*GitVersioning).GetVersion`. -/
def GitVersioning.GetVersion (gv : GitVersioning) : GoRet GoString :=
  match gv.repo.tags with
  | .error err => .ret (GoString.ofString "") (some ⟨"failed to get tags: " ++ err.msg⟩)
  | .ok refs =>
    let hashToTag := collectTags refs
    match gv.repo.tagsIterErr with
    | some err =>
      .ret (GoString.ofString "") (some ⟨"failed to iterate tags: " ++ err.msg⟩)
    | none =>
      match gv.repo.head with
      | .error err =>
        .ret (GoString.ofString "") (some ⟨"failed to get head: " ++ err.msg⟩)
      | .ok head =>
        match hashToTag head.hash with
        | some tag => .ret (GoString.ofString tag) none
        | none => gv.deriveRelativeVersion hashToTag head.hash

end versioning

/-! ## Package `github`: `config.go`, `versioning.go`, `publish.go` -/

namespace github

/-- Go `Config`. -/
structure Config where
  RefName : String
  RefType : String
  Sha : String
  Token : String
  Repository : String
  deriving DecidableEq, Repr

/-- Go `Versioning`. -/
structure Versioning where
  refType : String
  refName : String
  sha : String
  deriving DecidableEq, Repr

/-- Go `NewVersioning`.  The argument is the pointer `*Config` (nil as `none`); the
result is the interface value `stages.Versioning`, nil as `none`. -/
def NewVersioning (config : Option Config) : Option Versioning :=
  match config with
  | none => none
  | some c =>
    if c.RefType ≠ "" ∧ c.RefName ≠ "" ∧ c.Sha ≠ "" then
      some ⟨c.RefType, c.RefName, c.Sha⟩
    else none

/-- Go `(*Versioning).GetVersion`. -/
def Versioning.GetVersion (v : Versioning) : GoRet GoString :=
  if v.refType = "tag" then .ret (GoString.ofString v.refName) none
  else if v.refType = "branch" then
    match versioning.ShortenSha v.sha with
    | some short => .ret (GoString.ofString (v.refName ++ "-") ++ short) none
    | none => .panic "slice bounds out of range"
  else .ret (GoString.ofString "") (some ⟨"unsupported ref type: " ++ v.refType⟩)

/-- Go `Publisher`. -/
structure Publisher where
  token : String
  repository : String
  deriving DecidableEq, Repr

/-- Go `NewPublisher`, called with a non-nil `*Config`.  The result is the pointer
`*Publisher`, nil as `none`. -/
def NewPublisher (config : Config) : Option Publisher :=
  if config.Token ≠ "" ∧ config.Repository ≠ "" then
    some ⟨config.Token, config.Repository⟩
  else none

/-- Go `(*Publisher).Publish` with receiver pointer `g`.  Reading `g.token`
through a nil receiver panics.  Everything after the two configuration checks
talks to the release service and is the parameter `release`. -/
def Publisher.Publish (release : Publisher → List String → String → Option GoError)
    (g : Option Publisher) (archiveFilePaths : List String) (version : String) :
    GoRet Unit :=
  match g with
  | none => .panic "invalid memory address or nil pointer dereference"
  | some p =>
    if p.token = "" then .ret () (some ⟨"github token is required"⟩)
    else if p.repository = "" then .ret () (some ⟨"github repository is required"⟩)
    else .ret () (release p archiveFilePaths version)

end github

/-! ## Package `builder`: `targets.go` -/

namespace builder

/-- Go `Target`. -/
structure Target where
  Os : String
  Arch : String
  Variant : String
  deriving DecidableEq, Repr

/-- The pattern `(.+?)/(.+?)(/(.+))?$` . -/
def platformPattern : RE :=
  .seq (.group 1 (.plusLazy .dot))
    (.seq (.cls (.lit '/'))
      (.seq (.group 2 (.plusLazy .dot))
        (.seq (.opt (.group 3 (.seq (.cls (.lit '/')) (.group 4 (.plusGreedy .dot)))))
          .eot)))

/-- The loop of Go `ParsePlatforms`, with `result` the slice built so far.  The
value `none` is the nil slice. -/
def parsePlatformsLoop : List String → List Target → GoRet (Option (List Target))
  | [], result => .ret (some result) none
  | str :: more, result =>
    match platformPattern.FindStringSubmatch 4 str with
    | [] => .ret none (some ⟨"invalid pattern: " ++ str⟩)
    | [_, os, arch, _, variant] =>
      parsePlatformsLoop more (result ++ [⟨os, arch, variant⟩])
    | _ => .panic "index out of range"

/-- Go `ParsePlatforms`. -/
def ParsePlatforms (platforms : List String) : GoRet (Option (List Target)) :=
  parsePlatformsLoop platforms []

/-! ## Package `builder`: `archive.go` -/

/-- Go `BuildResult`. -/
structure BuildResult where
  Target : Target
  Err : Option GoError
  BuiltExecutable : String
  deriving DecidableEq, Repr

/-- Go `Archiver`. -/
structure Archiver where
  outDir : String
  project : String
  version : String
  deriving DecidableEq, Repr

/-- Go `ArchiveResult`. -/
structure ArchiveResult where
  Target : Target
  Archive : String
  deriving DecidableEq, Repr

/-- The library and file-system calls of `archive.go`, as parameters.

* `pathJoin a b` : `path.Join(a, b)`;
* `create name` : the error of `os.Create(name)`;
* `openFile file` : the error of `os.Open(file)`;
* `stat file` : the error of `inFile.Stat()` on the opened `file`;
* `tarWriteHeader file` : the error of `tarWriter.WriteHeader` for the entry of
  `file`;
* `tarCopy file` : the error of `io.Copy(tarWriter, inFile)`;
* `zipCreate file` : the error of `zipWriter.Create(path.Base(file))`; when it is
  an error the entry writer it returns is nil;
* `zipCopy file` : the error of `io.Copy(entryWriter, inFile)` into an entry
  writer that is not nil;
* `zipCopyNilWriter file` : what `io.Copy(entryWriter, inFile)` does when
  `entryWriter` is nil: it panics as soon as a byte of `file` is to be written,
  and returns otherwise;
* `readmeExists` : whether `os.Stat("README.md")` succeeds. -/
structure ArchiveEnv where
  pathJoin : String → String → String
  create : String → Option GoError
  openFile : String → Option GoError
  stat : String → Option GoError
  tarWriteHeader : String → Option GoError
  tarCopy : String → Option GoError
  zipCreate : String → Option GoError
  zipCopy : String → Option GoError
  zipCopyNilWriter : String → GoRet Unit
  readmeExists : Bool

/-- What one call of `archive` did: the names it passed to `os.Create`, in order,
and what it returned (`none` is the nil `*ArchiveResult`). -/
structure ArchiveRun where
  created : List String
  result : GoRet (Option ArchiveResult)

/-- Go `(*Archiver).formFilename`. -/
def Archiver.formFilename (env : ArchiveEnv) (a : Archiver) (result : BuildResult)
    (suffix : String) : String :=
  env.pathJoin a.outDir
    (a.project ++ "_" ++ a.version ++ "_" ++ result.Target.Os ++ "_" ++
      result.Target.Arch ++ result.Target.Variant ++ "." ++ suffix)

/-- Go `(*Archiver).writeFileToTar`; the value of the result is its `error`. -/
def Archiver.writeFileToTar (env : ArchiveEnv) (_a : Archiver) (filePath : String) :
    GoRet Unit :=
  match env.openFile filePath with
  | some err => .ret () (some ⟨"failed to open file to archive: " ++ err.msg⟩)
  | none =>
    match env.stat filePath with
    | some err => .ret () (some ⟨"failed to stat file to archive: " ++ err.msg⟩)
    | none =>
      match env.tarWriteHeader filePath with
      | some err => .ret () (some ⟨"failed to write tar header: " ++ err.msg⟩)
      | none =>
        match env.tarCopy filePath with
        | some err => .ret () (some ⟨"failed to copy content into tar: " ++ err.msg⟩)
        | none => .ret () none

/-- Go `(*Archiver).writeFileToZip`; the value of the result is its `error`.  The
error of `zipWriter.Create` is overwritten by that of `os.Open` without being
tested, so after a failed `Create` the copy runs on the nil entry writer. -/
def Archiver.writeFileToZip (env : ArchiveEnv) (_a : Archiver) (filePath : String) :
    GoRet Unit :=
  let entryErr := env.zipCreate filePath
  match env.openFile filePath with
  | some err => .ret () (some ⟨"failed to open file to archive: " ++ err.msg⟩)
  | none =>
    match entryErr with
    | none =>
      match env.zipCopy filePath with
      | some err => .ret () (some ⟨"failed to copy content into zip: " ++ err.msg⟩)
      | none => .ret () none
    | some _ =>
      match env.zipCopyNilWriter filePath with
      | .ret _ (some err) =>
        .ret () (some ⟨"failed to copy content into zip: " ++ err.msg⟩)
      | .ret _ none => .ret () none
      | .panic msg => .panic msg

/-- Go `(*Archiver).archiveTarGz`. -/
def Archiver.archiveTarGz (env : ArchiveEnv) (a : Archiver) (buildResult : BuildResult) :
    ArchiveRun :=
  let name := a.formFilename env buildResult "tar.gz"
  match env.create name with
  | some err => ⟨[name], .ret none (some ⟨"failed to create archive file: " ++ err.msg⟩)⟩
  | none =>
    match a.writeFileToTar env buildResult.BuiltExecutable with
    | .panic msg => ⟨[name], .panic msg⟩
    | .ret _ (some err) =>
      ⟨[name], .ret none (some ⟨"failed to write file " ++ buildResult.BuiltExecutable ++
        " to tar: " ++ err.msg⟩)⟩
    | .ret _ none =>
      match (if env.readmeExists then a.writeFileToTar env "README.md"
             else .ret () none) with
      | .panic msg => ⟨[name], .panic msg⟩
      | .ret _ (some err) =>
        ⟨[name], .ret none (some ⟨"failed to write README.md to archive: " ++ err.msg⟩)⟩
      | .ret _ none => ⟨[name], .ret (some ⟨buildResult.Target, name⟩) none⟩

/-- Go `(*Archiver).archiveZip`. -/
def Archiver.archiveZip (env : ArchiveEnv) (a : Archiver) (buildResult : BuildResult) :
    ArchiveRun :=
  let name := a.formFilename env buildResult "zip"
  match env.create name with
  | some err => ⟨[name], .ret none (some ⟨"failed to create archive file: " ++ err.msg⟩)⟩
  | none =>
    match a.writeFileToZip env buildResult.BuiltExecutable with
    | .panic msg => ⟨[name], .panic msg⟩
    | .ret _ (some err) =>
      ⟨[name], .ret none (some ⟨"failed to write file " ++ buildResult.BuiltExecutable ++
        " to zip: " ++ err.msg⟩)⟩
    | .ret _ none =>
      match (if env.readmeExists then a.writeFileToZip env "README.md"
             else .ret () none) with
      | .panic msg => ⟨[name], .panic msg⟩
      | .ret _ (some err) =>
        ⟨[name], .ret none (some ⟨"failed to write README.md to archive: " ++ err.msg⟩)⟩
      | .ret _ none => ⟨[name], .ret (some ⟨buildResult.Target, name⟩) none⟩

/-- Go `(*Archiver).archive`. -/
def Archiver.archive (env : ArchiveEnv) (a : Archiver) (buildResult : BuildResult) :
    ArchiveRun :=
  if buildResult.Target.Os = "windows" then a.archiveZip env buildResult
  else a.archiveTarGz env buildResult

/-- Go `ArchiveConfig`. -/
structure ArchiveConfig where
  OutDir : String
  deriving DecidableEq, Repr

/-- Go `WithProject`, an `ArchiverOption`. -/
def WithProject (project : String) : Archiver → Archiver :=
  fun archiver => { archiver with project := project }

/-- Go `NewArchiver`. -/
def NewArchiver (config : ArchiveConfig) (version : String)
    (options : List (Archiver → Archiver)) : Archiver :=
  options.foldl (fun archiver option => option archiver) ⟨config.OutDir, "", version⟩

/-- The `for` loop of Go `(*Archiver).ArchiveBuildResults` over the build results
still to visit, with the index `i` of the first of them and the slice `results`
of pointers `*ArchiveResult` (nil as `none`) as it stands. -/
def archiveBuildResultsLoop (env : ArchiveEnv) (a : Archiver) :
    List BuildResult → Nat → List (Option ArchiveResult) →
      GoRet (Option (List (Option ArchiveResult)))
  | [], _, results => .ret (some results) none
  | buildResult :: more, i, results =>
    if buildResult.Err ≠ none then
      -- continue
      archiveBuildResultsLoop env a more (i + 1) results
    else
      match (a.archive env buildResult).result with
      | .ret _ (some err) => .ret none (some ⟨"failed to archive: " ++ err.msg⟩)
      | .ret (some result) none =>
        archiveBuildResultsLoop env a more (i + 1) (results.set i (some result))
      | .ret none none => .panic "invalid memory address or nil pointer dereference"
      | .panic msg => .panic msg

/-- Go `(*Archiver).ArchiveBuildResults`: `results` starts as
`make([]*ArchiveResult, len(buildResults))`, a slice of nil pointers. -/
def Archiver.ArchiveBuildResults (env : ArchiveEnv) (a : Archiver)
    (buildResults : List BuildResult) : GoRet (Option (List (Option ArchiveResult))) :=
  archiveBuildResultsLoop env a buildResults 0 (List.replicate buildResults.length none)

/-! ## Package `builder`: `builder.go`

`Build` starts `workersCount` goroutines running `doBuild` and then feeds and
collects on its own goroutine.  The embedding is a transition system: a state
holds the three channels, the cancellation flags and the control point of every
goroutine; an `Action` is one atomic step of one goroutine, and `step` performs it
when Go allows it (a `select` case that can proceed, a send on a channel with
room).  Every channel with a sender has capacity at least one, so a send places
the value in the buffer and a receive takes the oldest one. -/

/-- Go `BuilderConfig`. -/
structure BuilderConfig where
  Main : String
  Binary : String
  OutDir : String
  Concurrency : Int
  deriving DecidableEq, Repr

/-- Go `Builder`. -/
structure Builder where
  config : BuilderConfig
  version : String
  deriving DecidableEq, Repr

/-- The library and external calls of `builder.go`, as parameters.

* `pathJoin a b` : `path.Join(a, b)`;
* `mkdirAll dir` : the error of `os.MkdirAll(dir, 0755)`;
* `goBuild cancelled out version main target` : the error of `cmd.Run()` for the
  `go build -o out` command of `target`, run under a context that is
  (`cancelled = true`) or is not yet cancelled. -/
structure BuildEnv where
  pathJoin : String → String → String
  mkdirAll : String → Option GoError
  goBuild : Bool → String → String → String → Target → Option GoError

/-- Go `(*Builder).buildTarget`, run under a context whose cancellation state is
`cancelled`. -/
def Builder.buildTarget (env : BuildEnv) (b : Builder) (cancelled : Bool)
    (target : Target) : String × Option GoError :=
  let archDirName := target.Os ++ "_" ++ target.Arch ++ target.Variant
  let archDir := env.pathJoin b.config.OutDir archDirName
  match env.mkdirAll archDir with
  | some err => ("", some ⟨"failed to create output directory: " ++ err.msg⟩)
  | none =>
    let binary := if target.Os = "windows" then b.config.Binary ++ ".exe" else b.config.Binary
    let resolvedBinary := env.pathJoin archDir binary
    (resolvedBinary, env.goBuild cancelled resolvedBinary b.version b.config.Main target)

/-- Control points of a `doBuild` goroutine. -/
inductive WorkerPc where
  /-- at the `select` at the top of the `for` loop -/
  | selecting
  /-- inside `b.buildTarget(ctx, target)` -/
  | building (target : Target)
  /-- at `results <- &BuildResult{...}` -/
  | sending (result : BuildResult)
  /-- returning: the deferred `done()` is still to run -/
  | returning
  /-- finished -/
  | exited
  deriving DecidableEq, Repr

/-- Control points of the goroutine running `Build`, after the workers have been
started. -/
inductive OrchPc where
  /-- in the feeding loop, at the `select` for the first of the remaining targets;
  with no target remaining, at `close(jobs)` -/
  | feeding (remaining : List Target)
  /-- at the test of the collecting loop -/
  | collecting
  /-- `Build` has returned `(results, err)`; `none` is the nil slice -/
  | returned (results : Option (List BuildResult)) (err : Option GoError)
  deriving DecidableEq, Repr

/-- The state of one run of `Build`. -/
structure BuildState where
  /-- `workersCount`, also the capacity of `targetResultsChan` and `workersDone` -/
  workersCount : Nat
  /-- capacity of `jobs`, that is `len(targets)` -/
  jobsCap : Nat
  /-- the caller's `ctx` is done -/
  ctxDone : Bool
  /-- `jobsCtx` is done -/
  jobsCtxDone : Bool
  /-- buffer of channel `jobs`, oldest first -/
  jobs : List Target
  /-- `jobs` has been closed -/
  jobsClosed : Bool
  /-- buffer of channel `targetResultsChan`, oldest first -/
  targetResultsChan : List BuildResult
  /-- number of values buffered in channel `workersDone` -/
  workersDone : Nat
  /-- the worker goroutines -/
  workers : List WorkerPc
  /-- the goroutine of `Build` -/
  orch : OrchPc
  /-- the local slice `results` -/
  results : List BuildResult
  /-- the local `workersDoneCount` -/
  workersDoneCount : Nat
  /-- history: the targets `buildTarget` has been called with, in order -/
  invoked : List Target
  /-- history: the results sent on `targetResultsChan`, in order -/
  pushed : List BuildResult
  deriving DecidableEq, Repr

/-- One atomic step of one goroutine, or of the caller's context. -/
inductive Action where
  /-- the caller's `ctx` is cancelled (which cancels `jobsCtx` too) -/
  | ctxCancel
  /-- `Build`, feeding loop: `case jobs <- target` -/
  | orchSendJob
  /-- `Build`, either loop: `case <-ctx.Done()` -/
  | orchCtxDone
  /-- `Build`, either loop: `case result := <-targetResultsChan` -/
  | orchRecvResult
  /-- `Build`: `close(jobs)` after the feeding loop -/
  | orchCloseJobs
  /-- `Build`, collecting loop: `case <-workersDone` -/
  | orchRecvDone
  /-- `Build`: the collecting loop ends and `Build` returns `results, nil` -/
  | orchReturn
  /-- worker `i`: `case <-ctx.Done()` -/
  | workerCtxDone (i : Nat)
  /-- worker `i`: `case target, jobsOpen := <-jobs`, calling `buildTarget` when open -/
  | workerRecvJob (i : Nat)
  /-- worker `i`: `buildTarget` returns -/
  | workerBuilt (i : Nat)
  /-- worker `i`: `results <- &BuildResult{...}` -/
  | workerSendResult (i : Nat)
  /-- worker `i`: the deferred `done()`, that is `workersDone <- struct{}{}` -/
  | workerDone (i : Nat)
  deriving DecidableEq, Repr

/-- The closure `handleResult` of `Build`. -/
def handleResult (s : BuildState) (result : BuildResult) : BuildState :=
  { s with
    jobsCtxDone := if result.Err ≠ none then true else s.jobsCtxDone
    results := s.results ++ [result] }

/-- One step of worker `i` at control point `pc`. -/
def workerStep (env : BuildEnv) (b : Builder) (s : BuildState) (i : Nat) (pc : WorkerPc) :
    Action → Option BuildState
  | .workerCtxDone _ =>
    match pc with
    | .selecting =>
      if s.jobsCtxDone then some { s with workers := s.workers.set i .returning } else none
    | _ => none
  | .workerRecvJob _ =>
    match pc with
    | .selecting =>
      match s.jobs with
      | target :: more =>
        some { s with
          jobs := more
          workers := s.workers.set i (.building target)
          invoked := s.invoked ++ [target] }
      | [] =>
        if s.jobsClosed then some { s with workers := s.workers.set i .returning } else none
    | _ => none
  | .workerBuilt _ =>
    match pc with
    | .building target =>
      match b.buildTarget env s.jobsCtxDone target with
      | (_, some err) =>
        some { s with workers := s.workers.set i (.sending ⟨target, some err, ""⟩) }
      | (binary, none) =>
        some { s with workers := s.workers.set i (.sending ⟨target, none, binary⟩) }
    | _ => none
  | .workerSendResult _ =>
    match pc with
    | .sending result =>
      if s.targetResultsChan.length < s.workersCount then
        some { s with
          targetResultsChan := s.targetResultsChan ++ [result]
          pushed := s.pushed ++ [result]
          workers := s.workers.set i (if result.Err ≠ none then .returning else .selecting) }
      else none
    | _ => none
  | .workerDone _ =>
    match pc with
    | .returning =>
      if s.workersDone < s.workersCount then
        some { s with workersDone := s.workersDone + 1, workers := s.workers.set i .exited }
      else none
    | _ => none
  | _ => none

/-- Whether the goroutine of `Build` is at one of its two `select` statements, and
the control point it reaches after a case that lets the loop go on. -/
def orchAtSelect (s : BuildState) : Option OrchPc :=
  match s.orch with
  | .feeding (_ :: more) => some (.feeding more)
  | .collecting => if s.workersDoneCount < s.workersCount then some .collecting else none
  | _ => none

/-- One step of the run: `none` when the action cannot proceed in state `s`. -/
def step (env : BuildEnv) (b : Builder) (s : BuildState) : Action → Option BuildState
  | .ctxCancel => some { s with ctxDone := true, jobsCtxDone := true }
  | .orchSendJob =>
    match s.orch with
    | .feeding (target :: more) =>
      if s.jobs.length < s.jobsCap then
        some { s with jobs := s.jobs ++ [target], orch := .feeding more }
      else none
    | _ => none
  | .orchCtxDone =>
    match orchAtSelect s with
    | some _ =>
      if s.ctxDone then
        some { s with orch := .returned none (some ⟨"context canceled"⟩), jobsCtxDone := true }
      else none
    | none => none
  | .orchRecvResult =>
    match orchAtSelect s, s.targetResultsChan with
    | some next, result :: more =>
      some { handleResult { s with targetResultsChan := more } result with orch := next }
    | _, _ => none
  | .orchCloseJobs =>
    match s.orch with
    | .feeding [] => some { s with jobsClosed := true, orch := .collecting }
    | _ => none
  | .orchRecvDone =>
    match s.orch with
    | .collecting =>
      if s.workersDoneCount < s.workersCount ∧ 0 < s.workersDone then
        some { s with workersDone := s.workersDone - 1, workersDoneCount := s.workersDoneCount + 1 }
      else none
    | _ => none
  | .orchReturn =>
    match s.orch with
    | .collecting =>
      if s.workersDoneCount < s.workersCount then none
      else some { s with orch := .returned (some s.results) none, jobsCtxDone := true }
    | _ => none
  | .workerCtxDone i =>
    match s.workers[i]? with
    | some pc => workerStep env b s i pc (.workerCtxDone i)
    | none => none
  | .workerRecvJob i =>
    match s.workers[i]? with
    | some pc => workerStep env b s i pc (.workerRecvJob i)
    | none => none
  | .workerBuilt i =>
    match s.workers[i]? with
    | some pc => workerStep env b s i pc (.workerBuilt i)
    | none => none
  | .workerSendResult i =>
    match s.workers[i]? with
    | some pc => workerStep env b s i pc (.workerSendResult i)
    | none => none
  | .workerDone i =>
    match s.workers[i]? with
    | some pc => workerStep env b s i pc (.workerDone i)
    | none => none

/-- Run a schedule: the actions in order, `none` as soon as one cannot proceed. -/
def exec (env : BuildEnv) (b : Builder) : BuildState → List Action → Option BuildState
  | s, [] => some s
  | s, a :: more =>
    match step env b s a with
    | some s1 => exec env b s1 more
    | none => none

/-- How a call of `Build` begins: it returns at once with an error, or panics, or
reaches the feeding loop in state `s` with its workers started. -/
inductive BuildStart where
  | failed (err : GoError)
  | panicked (msg : String)
  | running (b : Builder) (s : BuildState)
  deriving DecidableEq, Repr

/-- Go `Build` up to the feeding loop; `ctxDone` says whether the caller's context
is already done. -/
def Build.start (env : BuildEnv) (ctxDone : Bool) (config : BuilderConfig)
    (targets : List Target) (version : String) : BuildStart :=
  if config.Main = "" then .failed ⟨"builder main is required"⟩
  else if config.Binary = "" then .failed ⟨"builder binary is required"⟩
  else
    match env.mkdirAll config.OutDir with
    | some err => .failed ⟨"failed to create output directory: " ++ err.msg⟩
    | none =>
      let workersCount : Int := min (targets.length : Int) config.Concurrency
      if workersCount < 0 then .panicked "makechan: size out of range"
      else
        .running ⟨config, version⟩
          { workersCount := workersCount.toNat
            jobsCap := targets.length
            ctxDone := ctxDone
            jobsCtxDone := ctxDone
            jobs := []
            jobsClosed := false
            targetResultsChan := []
            workersDone := 0
            workers := List.replicate workersCount.toNat .selecting
            orch := .feeding targets
            results := []
            workersDoneCount := 0
            invoked := []
            pushed := [] }

/-- A run of `Build` under a schedule: the state reached, when `Build` got as far
as starting its workers and every action of the schedule could proceed. -/
def Build.run (env : BuildEnv) (config : BuilderConfig) (targets : List Target)
    (version : String) (schedule : List Action) : Option BuildState :=
  match Build.start env false config targets version with
  | .running b s => exec env b s schedule
  | _ => none

end builder

/-! ## Package `main`: `cmd/mbuild-release/main.go`, the publishing stage -/

namespace cmd

/-- A Go interface value of type `stages.Publisher`.  The only implementation is
`*github.Publisher`, so the value is either the nil interface or an interface
holding a `*github.Publisher` pointer, which may itself be the nil pointer
(`none`).  An interface holding a nil pointer is not the nil interface. -/
inductive PublisherValue where
  | nilInterface
  | ofPublisher (ptr : Option github.Publisher)
  deriving DecidableEq, Repr

/-- Go `publisher != nil` for an interface value. -/
def PublisherValue.isNonNil : PublisherValue → Bool
  | .nilInterface => false
  | .ofPublisher _ => true

/-- How the publishing stage of `main` ends. -/
inductive PublishStage where
  /-- the `else` branch: "no publisher configured, skipping publish" -/
  | skipped
  /-- `Publish` was called and returned no error -/
  | published
  /-- `Publish` was called and returned an error: `os.Exit(1)` -/
  | exit1 (err : GoError)
  /-- `Publish` was called and panicked -/
  | panicked (msg : String)
  deriving DecidableEq, Repr

/-- Go `main`, from `var publisher stages.Publisher` to the end.  `githubConfig`
is the pointer `*github.Config` (nil as `none`). -/
def mainPublish (release : github.Publisher → List String → String → Option GoError)
    (githubConfig : Option github.Config) (archiveFilePaths : List String)
    (version : String) : PublishStage :=
  let publisher : PublisherValue :=
    match githubConfig with
    | some config => .ofPublisher (github.NewPublisher config)
    | none => .nilInterface
  if publisher.isNonNil then
    match publisher with
    | .ofPublisher ptr =>
      match github.Publisher.Publish release ptr archiveFilePaths version with
      | .ret _ none => .published
      | .ret _ (some err) => .exit1 err
      | .panic msg => .panicked msg
    | .nilInterface => .panicked "invalid memory address or nil pointer dereference"
  else .skipped

/-! ### `main.go`, the archiving stage -/

/-- How the archiving stage of `main` ends. -/
inductive ArchiveStage where
  /-- `ArchiveBuildResults` returned an error: `os.Exit(1)` -/
  | exit1 (err : GoError)
  /-- the loop filled `archiveFilePaths` -/
  | paths (archiveFilePaths : List String)
  /-- a run-time panic -/
  | panicked (msg : String)
  deriving DecidableEq, Repr

/-- The `for` loop of Go `main` that fills `archiveFilePaths`, over the entries of
`archiveResults` still to visit, with the index `i` of the first of them.  Reading
`archiveResult.Archive` through a nil pointer panics (`none`). -/
def archiveFilePathsLoop :
    List (Option builder.ArchiveResult) → Nat → List String → Option (List String)
  | [], _, archiveFilePaths => some archiveFilePaths
  | none :: _, _, _ => none
  | some archiveResult :: more, i, archiveFilePaths =>
    archiveFilePathsLoop more (i + 1) (archiveFilePaths.set i archiveResult.Archive)

/-- Go `main`, from `project := args.Project` to the end of the loop that fills
`archiveFilePaths`.  `argsArchive`, `argsProject` and `binary` are `args.Archive`,
`args.Project` and `args.Builder.Binary`. -/
def mainArchive (env : builder.ArchiveEnv) (argsArchive : builder.ArchiveConfig)
    (argsProject binary version : String) (buildResults : List builder.BuildResult) :
    ArchiveStage :=
  let project := if argsProject = "" then binary else argsProject
  let archiver := builder.NewArchiver argsArchive (versioning.Normalize version)
    [builder.WithProject project]
  match archiver.ArchiveBuildResults env buildResults with
  | .ret _ (some err) => .exit1 err
  | .ret archiveResults none =>
    let entries := archiveResults.getD []
    match archiveFilePathsLoop entries 0 (List.replicate entries.length "") with
    | some archiveFilePaths => .paths archiveFilePaths
    | none => .panicked "invalid memory address or nil pointer dereference"
  | .panic msg => .panicked msg

end cmd

/-! ## Specification-side definitions -/

namespace versioning

/-- Whether a string begins with `v` immediately followed by a decimal digit, as the
specification words it. -/
def beginsWithVDigit (s : String) : Bool :=
  match s.data with
  | c :: d :: _ => c == 'v' && d.isDigit
  | _ => false

/-- The tag mapping by reference hash: a hash is sent to the short name of the last
tag reference (of type hash reference) that holds it. -/
def referenceTagMap (refs : List Reference) : TagMap :=
  fun h =>
    ((refs.filter (fun ref => decide (ref.type = .HashReference ∧ ref.hash = h))).getLast?).map
      (fun ref => ref.short)

/-- The commit a tag reference points at: for an annotated tag the commit its tag
object points at, for a lightweight tag the hash the reference holds. -/
def taggedCommit (r : Repository) (ref : Reference) : Hash :=
  (r.tagObject ref.hash).getD ref.hash

/-- The tag mapping of the repository as the specification names it: a commit hash
is sent to the short name of the last tag that points at that commit. -/
def commitTagMap (r : Repository) (refs : List Reference) : TagMap :=
  fun h =>
    ((refs.filter
        (fun ref => decide (ref.type = .HashReference ∧ taggedCommit r ref = h))).getLast?).map
      (fun ref => ref.short)

end versioning

namespace builder

/-- The part of `platformPattern` after the second group: `(/(.+))?$` . -/
def platformTail : RE :=
  .seq (.opt (.group 3 (.seq (.cls (.lit '/')) (.group 4 (.plusGreedy .dot))))) .eot

/-- The part of `platformPattern` after the first group: `/(.+?)(/(.+))?$` . -/
def platformAfterOs : RE :=
  .seq (.cls (.lit '/')) (.seq (.group 2 (.plusLazy .dot)) platformTail)

/-- The archive path of the specification: `outDir` joined with
`{project}_{version}_{os}_{arch}{variant}.{ext}`, where `ext` is `zip` when the OS
is exactly `windows` and `tar.gz` otherwise. -/
def archivePath (env : ArchiveEnv) (a : Archiver) (t : Target) : String :=
  env.pathJoin a.outDir
    (a.project ++ "_" ++ a.version ++ "_" ++ t.Os ++ "_" ++ t.Arch ++ t.Variant ++ "." ++
      (if t.Os = "windows" then "zip" else "tar.gz"))

/-- Every library call that copies `file` into an archive succeeds. -/
def ArchiveEnv.copies (env : ArchiveEnv) (file : String) : Prop :=
  env.openFile file = none ∧ env.stat file = none ∧ env.tarWriteHeader file = none ∧
  env.tarCopy file = none ∧ env.zipCreate file = none ∧ env.zipCopy file = none

instance (env : ArchiveEnv) (file : String) : Decidable (env.copies file) := by
  unfold ArchiveEnv.copies
  infer_instance

/-- The platform string of a target as the specification writes it: `os/arch`, and
`os/arch/variant` when there is a variant. -/
def Target.platform (t : Target) : String :=
  if t.Variant = "" then t.Os ++ "/" ++ t.Arch
  else t.Os ++ "/" ++ t.Arch ++ "/" ++ t.Variant

/-- The side conditions of the specification on the parts of a platform string: OS
and architecture are non-empty and contain no `/`, and no part contains a line
feed. -/
def Target.wellFormed (t : Target) : Prop :=
  t.Os ≠ "" ∧ t.Arch ≠ "" ∧
  (∀ c ∈ t.Os.data, c ≠ '/' ∧ c ≠ '\n') ∧
  (∀ c ∈ t.Arch.data, c ≠ '/' ∧ c ≠ '\n') ∧
  (∀ c ∈ t.Variant.data, c ≠ '\n')

instance (t : Target) : Decidable t.wellFormed := by
  unfold Target.wellFormed
  infer_instance

end builder

/-! ## Concrete inputs -/

namespace versioning

/-- The hash whose 20 bytes all equal `b`. -/
def hashOfByte (b : Fin 256) : Hash := ⟨List.replicate 20 b, List.length_replicate _ _⟩

/-- A repository shaped like the test fixture `relativeTag`: HEAD two commits
ahead of the commit tagged `1`. -/
def relativeTagRepo : GitVersioning :=
  ⟨{ tags := .ok [⟨.HashReference, hashOfByte 0x11, "1"⟩]
     tagsIterErr := none
     head := .ok ⟨.SymbolicReference, hashOfByte 0xff, "master"⟩
     log := .ok [(some ⟨hashOfByte 0xff⟩, none), (some ⟨hashOfByte 0x97⟩, none),
                 (some ⟨hashOfByte 0x11⟩, none)]
     tagObject := fun _ => none }⟩

/-- A repository whose HEAD commit `ee...` carries the annotated tag `2`: the tag
reference holds the hash `aa...` of the tag object, which points at HEAD. -/
def annotatedTagRepo : GitVersioning :=
  ⟨{ tags := .ok [⟨.HashReference, hashOfByte 0xaa, "2"⟩]
     tagsIterErr := none
     head := .ok ⟨.HashReference, hashOfByte 0xee, "master"⟩
     log := .ok [(some ⟨hashOfByte 0xee⟩, none), (some ⟨hashOfByte 0xdd⟩, none)]
     tagObject := fun h => if h = hashOfByte 0xaa then some (hashOfByte 0xee) else none }⟩

/-- A repository without tags whose history cannot be read past HEAD: the second
call of `Next` fails with an error that is not end-of-history. -/
def brokenHistoryRepo : GitVersioning :=
  ⟨{ tags := .ok []
     tagsIterErr := none
     head := .ok ⟨.SymbolicReference, hashOfByte 0x4b, "master"⟩
     log := .ok [(some ⟨hashOfByte 0x4b⟩, none), (none, some ⟨"object not found"⟩)]
     tagObject := fun _ => none }⟩

end versioning

namespace github

/-- A CI configuration of a branch build. -/
def branchConfig : Config :=
  { RefName := "main", RefType := "branch",
    Sha := "ff97468e1b2c3d4e5f60718293a4b5c6d7e8f901",
    Token := "", Repository := "itzg/go-mbuild-release" }

/-- A CI configuration of a branch build whose `Sha` has 7 characters but 10 bytes:
its first three characters take two bytes each. -/
def nonAsciiShaConfig : Config :=
  { RefName := "main", RefType := "branch", Sha := "éééaXYZ",
    Token := "", Repository := "itzg/go-mbuild-release" }

end github

namespace builder

/-- An archiving environment in which every file operation succeeds and
`path.Join` joins two clean relative elements. -/
def plainArchiveEnv : ArchiveEnv :=
  { pathJoin := fun a b => a ++ "/" ++ b
    create := fun _ => none
    openFile := fun _ => none
    stat := fun _ => none
    tarWriteHeader := fun _ => none
    tarCopy := fun _ => none
    zipCreate := fun _ => none
    zipCopy := fun _ => none
    zipCopyNilWriter := fun _ => .panic "invalid memory address or nil pointer dereference"
    readmeExists := true }

/-- A successful build for `windows`. -/
def windowsBuildResult : BuildResult :=
  ⟨⟨"windows", "amd64", ""⟩, none, "out/windows_amd64/app.exe"⟩

/-- What `Build` returns when the `linux` target built and the `windows` target
failed. -/
def mixedBuildResults : List BuildResult :=
  [⟨⟨"linux", "amd64", ""⟩, none, "out/linux_amd64/app"⟩,
   ⟨⟨"windows", "amd64", ""⟩, some ⟨"exit status 1"⟩, ""⟩]

/-- Three well-formed targets, with and without variant. -/
def sampleTargets : List Target :=
  [⟨"linux", "amd64", ""⟩, ⟨"linux", "arm", "v7"⟩, ⟨"windows", "amd64", ""⟩]

/-- A build environment: directories can be created, a build run under a cancelled
context fails, and otherwise only builds for `windows` fail. -/
def sampleBuildEnv : BuildEnv :=
  { pathJoin := fun a b => a ++ "/" ++ b
    mkdirAll := fun _ => none
    goBuild := fun cancelled _ _ _ target =>
      if cancelled then some ⟨"signal: killed"⟩
      else if target.Os = "windows" then some ⟨"exit status 1"⟩
      else none }

/-- A complete builder configuration with the default concurrency. -/
def sampleConfig : BuilderConfig :=
  { Main := "./cmd/app", Binary := "app", OutDir := "out", Concurrency := 4 }

/-- A schedule for one target and one worker, up to the collecting `select` of
`Build`: the worker has built the target, sent its result, found `jobs` closed and
signalled completion. -/
def workerFirstSchedule : List Action :=
  [.orchSendJob, .orchCloseJobs, .workerRecvJob 0, .workerBuilt 0, .workerSendResult 0,
   .workerRecvJob 0, .workerDone 0]

/-- A configuration with two workers. -/
def twoWorkerConfig : BuilderConfig :=
  { Main := "./cmd/app", Binary := "app", OutDir := "out", Concurrency := 2 }

/-- Three targets of which the first fails to build. -/
def failFastTargets : List Target :=
  [⟨"windows", "amd64", ""⟩, ⟨"linux", "amd64", ""⟩, ⟨"darwin", "arm64", ""⟩]

/-- A schedule for `failFastTargets` with two workers, up to the moment `Build` has
handled the failed result of the first target and cancelled `jobsCtx`; the second
worker has finished its build and sent its result. -/
def cancelSchedule : List Action :=
  [.orchSendJob, .orchSendJob, .orchSendJob, .orchCloseJobs,
   .workerRecvJob 0, .workerRecvJob 1, .workerBuilt 0, .workerSendResult 0,
   .workerBuilt 1, .orchRecvResult, .workerSendResult 1]

end builder

/-! ## Theorems: `Normalize` -/

namespace versioning

theorem digit_test_eq_isDigit (d : Char) : CharClass.digit.test d = d.isDigit := by
  unfold CharClass.test Char.isDigit
  have h0 : ('0' ≤ d) ↔ (48 : UInt32) ≤ d.val := Iff.rfl
  have h9 : (d ≤ '9') ↔ d.val ≤ (57 : UInt32) := Iff.rfl
  by_cases a : (48 : UInt32) ≤ d.val <;> by_cases b : d.val ≤ (57 : UInt32) <;>
    simp [h0, h9, a, b]

theorem vPrefix_run_later (pos : Nat) (t : List Char) (caps : List (Nat × Nat × Nat))
    (cont : MState → Option MState) : RE.run vPrefix ⟨pos + 1, t, caps⟩ cont = none := by
  simp [vPrefix, RE.run]

theorem vPrefix_run_start (t : List Char) :
    (RE.run vPrefix ⟨0, t, []⟩ some).isSome =
      (match t with
       | c :: d :: _ => c == 'v' && d.isDigit
       | _ => false) := by
  rcases t with _ | ⟨c, _ | ⟨d, t⟩⟩
  · simp [vPrefix, RE.run]
  · by_cases hc : c = 'v' <;> simp [vPrefix, RE.run, CharClass.test, hc]
  · by_cases hc : c = 'v' <;> by_cases hd : d.isDigit = true <;>
      simp [vPrefix, RE.run, CharClass.test, hc, hd, ← digit_test_eq_isDigit]
    · have := digit_test_eq_isDigit d
      simp [CharClass.test, hd] at this
      simp [this]
    · have := digit_test_eq_isDigit d
      simp [CharClass.test, hd] at this
      intro h0
      exact this h0

theorem vPrefix_search_later (t : List Char) (pos : Nat) :
    RE.searchFrom vPrefix (pos + 1) t = none := by
  induction t generalizing pos with
  | nil => simp only [RE.searchFrom, vPrefix_run_later]
  | cons c t ih => simp only [RE.searchFrom, vPrefix_run_later, ih]

theorem vPrefix_match (s : String) : RE.MatchString vPrefix s = beginsWithVDigit s := by
  unfold RE.MatchString beginsWithVDigit
  rw [← vPrefix_run_start]
  rcases s.data with _ | ⟨c, t⟩
  · simp only [RE.searchFrom]
    cases RE.run vPrefix ⟨0, [], []⟩ some <;> rfl
  · simp only [RE.searchFrom, Nat.zero_add, vPrefix_search_later t 0]
    cases RE.run vPrefix ⟨0, c :: t, []⟩ some <;> rfl

theorem isDigit_ne_v (d : Char) (hd : d.isDigit = true) : (d == 'v') = false := by
  by_cases h : d = 'v'
  · subst h
    exact absurd hd (by decide)
  · simpa using h

/-- C8: `Normalize s` is `s` without its first character exactly when `s` begins
with `v` immediately followed by a decimal digit, and `s` itself otherwise;
`Normalize "v2.1.0" = "2.1.0"`, `Normalize "2.1.0" = "2.1.0"`; and `Normalize` is
idempotent. -/
theorem Normalize_strips_v_before_digit :
    (∀ s : String, Normalize s = if beginsWithVDigit s then ⟨s.data.drop 1⟩ else s) ∧
    Normalize "v2.1.0" = "2.1.0" ∧
    Normalize "2.1.0" = "2.1.0" ∧
    (∀ s : String, Normalize (Normalize s) = Normalize s) := by
  have key : ∀ s : String,
      Normalize s = if beginsWithVDigit s then ⟨s.data.drop 1⟩ else s := by
    intro s
    simp only [Normalize, vPrefix_match]
  refine ⟨key, by decide, by decide, ?_⟩
  intro s
  rw [key (Normalize s), key s]
  by_cases h : beginsWithVDigit s = true
  · have h2 : beginsWithVDigit ⟨s.data.drop 1⟩ = false := by
      unfold beginsWithVDigit at h ⊢
      rcases hs : s.data with _ | ⟨c, _ | ⟨d, t⟩⟩
      · rfl
      · rfl
      · rw [hs] at h
        simp only [Bool.and_eq_true] at h
        rcases t with _ | ⟨e, t⟩
        · rfl
        · simp [isDigit_ne_v d h.2]
    rw [if_pos h, h2]
    rfl
  · rw [if_neg h, if_neg h]

end versioning

/-! ## Theorems: the git versioning -/

namespace versioning

theorem hex_length (l : List (Fin 256)) :
    (l.flatMap (fun b => [hexDigit (b.val / 16), hexDigit (b.val % 16)])).length
      = 2 * l.length := by
  induction l with
  | nil => rfl
  | cons b l ih => simp [List.flatMap_cons, ih]; omega

theorem utf8EncodeChar_ascii (c : Char) (h : c.toNat < 128) :
    utf8EncodeChar c = [c.toNat] := by
  simp [utf8EncodeChar, h]

theorem flatMap_utf8_ascii (l : List Char) (h : ∀ c ∈ l, c.toNat < 128) :
    l.flatMap utf8EncodeChar = l.map Char.toNat := by
  induction l with
  | nil => rfl
  | cons c l ih =>
    rw [List.flatMap_cons, List.map_cons, utf8EncodeChar_ascii c (h c (List.mem_cons_self _ _)),
      ih (fun x hx => h x (List.mem_cons_of_mem _ hx))]
    rfl

/-- Slicing 7 bytes off a string whose first 7 characters are ASCII yields those 7
characters. -/
theorem take7_bytes_ascii (l : List Char) (hlen : 7 ≤ l.length)
    (h : ∀ c ∈ l.take 7, c.toNat < 128) :
    (l.flatMap utf8EncodeChar).take 7 = (l.take 7).flatMap utf8EncodeChar := by
  have e := flatMap_utf8_ascii (l.take 7) h
  have hl : ((l.take 7).flatMap utf8EncodeChar).length = 7 := by
    rw [e, List.length_map, List.length_take]
    omega
  have hsplit : l.flatMap utf8EncodeChar =
      (l.take 7).flatMap utf8EncodeChar ++ (l.drop 7).flatMap utf8EncodeChar := by
    rw [← List.flatMap_append, List.take_append_drop]
  rw [hsplit]
  exact List.take_left' hl

theorem utf8_length_ge (l : List Char) : l.length ≤ (l.flatMap utf8EncodeChar).length := by
  induction l with
  | nil => simp
  | cons c l ih =>
    have hc : 1 ≤ (utf8EncodeChar c).length := by
      unfold utf8EncodeChar
      simp only []
      split_ifs <;> simp
    rw [List.flatMap_cons, List.length_append, List.length_cons]
    omega

theorem ofString_append (a b : String) :
    GoString.ofString (a ++ b) = GoString.ofString a ++ GoString.ofString b := by
  show GoString.mk _ = GoString.mk _
  rw [String.data_append, List.flatMap_append]
  rfl

theorem hexDigit_ascii (n : Nat) : (hexDigit n).toNat < 128 := by
  unfold hexDigit
  by_cases h : n < 16
  · interval_cases n <;> decide
  · have hd : "0123456789abcdef".data.getD n '0' = '0' :=
      List.getD_eq_default _ _ (by
        have : "0123456789abcdef".data.length = 16 := by decide
        omega)
    rw [hd]
    decide

theorem hash_str_ascii (h : Hash) : ∀ c ∈ h.str.data, c.toNat < 128 := by
  intro c hc
  simp only [Hash.str, List.mem_flatMap] at hc
  obtain ⟨b, _, hb⟩ := hc
  simp only [List.mem_cons, List.mem_singleton, List.not_mem_nil, or_false] at hb
  rcases hb with rfl | rfl <;> exact hexDigit_ascii _

theorem ShortenSha_hash (h : Hash) :
    ShortenSha h.str = some (GoString.ofString ⟨h.str.data.take 7⟩) := by
  have hl : h.str.data.length = 40 := by
    simp only [Hash.str, hex_length, h.len]
  have hb : 7 ≤ (GoString.ofString h.str).bytes.length := by
    have := utf8_length_ge h.str.data
    show 7 ≤ (h.str.data.flatMap utf8EncodeChar).length
    omega
  have ht := take7_bytes_ascii h.str.data (by omega)
    (fun c hc => hash_str_ascii h c (List.mem_of_mem_take hc))
  unfold ShortenSha
  rw [if_pos hb]
  show some (GoString.mk _) = some (GoString.mk _)
  rw [show (GoString.ofString h.str).bytes = h.str.data.flatMap utf8EncodeChar from rfl, ht]

/-- The map `GetVersion` builds is the tag mapping by reference hash. -/
theorem collectTags_eq_referenceTagMap (refs : List Reference) :
    collectTags refs = referenceTagMap refs := by
  induction refs using List.reverseRecOn with
  | nil => rfl
  | append_singleton l r ih =>
    have hstep : collectTags (l ++ [r]) =
        (if r.type = .HashReference then (collectTags l).set r.hash r.short
         else collectTags l) := by
      simp [collectTags, List.foldl_append]
    funext h
    rw [hstep, ih]
    unfold referenceTagMap
    rw [List.filter_append]
    by_cases ht : r.type = .HashReference
    · by_cases hh : r.hash = h
      · subst hh
        simp [ht, TagMap.set, List.filter_cons, List.getLast?_concat]
      · have hh2 : ¬ h = r.hash := fun e => hh e.symm
        simp [ht, TagMap.set, hh, hh2, List.filter_cons]
    · simp [ht, List.filter_cons]

/-- When every tag is lightweight the tag mapping by reference hash is the tag
mapping of the repository. -/
theorem referenceTagMap_lightweight (r : Repository) (refs : List Reference)
    (h : ∀ ref ∈ refs, r.tagObject ref.hash = none) :
    referenceTagMap refs = commitTagMap r refs := by
  funext x
  unfold referenceTagMap commitTagMap
  congr 2
  apply List.filter_congr
  intro ref href
  simp [taggedCommit, h ref href]

/-- Commits answered without error and carrying no tag only advance `distance`. -/
theorem deriveLoop_skip (M : TagMap) (head : Hash) (pre : List Hash) (more : List NextResult)
    (dist : Nat) (hpre : ∀ h ∈ pre, M h = none) :
    deriveLoop M head (pre.map (fun h => ((some ⟨h⟩, none) : NextResult)) ++ more) dist =
      deriveLoop M head more (dist + pre.length) := by
  induction pre generalizing dist with
  | nil => simp
  | cons h pre ih =>
    have hh : M h = none := hpre h (List.mem_cons_self _ _)
    have ht : ∀ x ∈ pre, M x = none := fun x hx => hpre x (List.mem_cons_of_mem _ hx)
    have hstep : deriveLoop M head
        (((some ⟨h⟩, none) : NextResult) ::
          (pre.map (fun h => ((some ⟨h⟩, none) : NextResult)) ++ more)) dist =
        deriveLoop M head (pre.map (fun h => ((some ⟨h⟩, none) : NextResult)) ++ more)
          (dist + 1) := by
      rw [deriveLoop]
      simp only [hh]
    rw [List.map_cons, List.cons_append, hstep, ih (dist + 1) ht, List.length_cons]
    congr 1
    omega

/-- C1 (amended): with the tag references listed without error, HEAD at `h0` and
the log answering `h0, h1, ..., hn` then end-of-history, let `M` send the hash held
by each tag reference to the tag's short name (the last reference wins).
`GetVersion` is the git-describe-style value over `M`: `M[h0]` when `h0` is in `M`;
for the least index `d > 0` with `hd` in `M`, `M[hd]-d-` followed by the first 7
characters of `h0`; and the bare first 7 characters of `h0`, without error, when no
commit of the log is in `M`.  When every tag is lightweight, `M` is the mapping from
the commit each tag points at to the tag's short name. -/
theorem GetVersion_git_describe (gv : GitVersioning) (refs : List Reference)
    (headRef : Reference) (hs : List Hash)
    (htags : gv.repo.tags = .ok refs) (hiter : gv.repo.tagsIterErr = none)
    (hhead : gv.repo.head = .ok headRef)
    (hlog : gv.repo.log =
      .ok ((headRef.hash :: hs).map (fun h => ((some ⟨h⟩, none) : NextResult)))) :
    (∀ t, referenceTagMap refs headRef.hash = some t →
      gv.GetVersion = .ret (GoString.ofString t) none) ∧
    (∀ d hd t, 0 < d → (headRef.hash :: hs)[d]? = some hd →
      referenceTagMap refs hd = some t →
      (∀ i h, i < d → (headRef.hash :: hs)[i]? = some h → referenceTagMap refs h = none) →
      gv.GetVersion =
        .ret (GoString.ofString
          (t ++ "-" ++ toString d ++ "-" ++ String.mk (headRef.hash.str.data.take 7))) none) ∧
    ((∀ h ∈ headRef.hash :: hs, referenceTagMap refs h = none) →
      gv.GetVersion =
        .ret (GoString.ofString (String.mk (headRef.hash.str.data.take 7))) none) ∧
    ((∀ ref ∈ refs, gv.repo.tagObject ref.hash = none) →
      referenceTagMap refs = commitTagMap gv.repo refs) := by
  rw [← collectTags_eq_referenceTagMap]
  refine ⟨?_, ?_, ?_, ?_⟩
  · intro t ht
    simp [GitVersioning.GetVersion, htags, hiter, hhead, ht]
  · intro d hd t hd0 hget htag hbefore
    have h0none : collectTags refs headRef.hash = none :=
      hbefore 0 headRef.hash hd0 (by simp)
    have hlt : d < (headRef.hash :: hs).length := by
      rcases List.getElem?_eq_some.mp hget with ⟨hlt, _⟩
      exact hlt
    have hsplit : headRef.hash :: hs =
        (headRef.hash :: hs).take d ++ hd :: (headRef.hash :: hs).drop (d + 1) := by
      rcases List.getElem?_eq_some.mp hget with ⟨hlt, he⟩
      rw [← he, List.getElem_cons_drop _ _ hlt, List.take_append_drop]
    have hpre : ∀ h ∈ (headRef.hash :: hs).take d, collectTags refs h = none := by
      intro h hmem
      rcases List.getElem_of_mem hmem with ⟨i, hi, he⟩
      have hi2 : i < d := by
        have := hi
        rw [List.length_take] at this
        omega
      apply hbefore i h hi2
      rw [List.getElem_take] at he
      rw [← he]
      exact List.getElem?_eq_getElem _
    have hlen : ((headRef.hash :: hs).take d).length = d := by
      rw [List.length_take]
      omega
    simp only [GitVersioning.GetVersion, htags, hiter, hhead, h0none,
      GitVersioning.deriveRelativeVersion, hlog]
    rw [hsplit, List.map_append, deriveLoop_skip _ _ _ _ _ hpre, hlen]
    simp only [List.map_cons, deriveLoop, htag, ShortenSha_hash, Nat.zero_add]
    rw [← ofString_append]
  · intro hall
    have h0none : collectTags refs headRef.hash = none :=
      hall _ (List.mem_cons_self _ _)
    simp only [GitVersioning.GetVersion, htags, hiter, hhead, h0none,
      GitVersioning.deriveRelativeVersion, hlog]
    have := deriveLoop_skip (collectTags refs) headRef.hash (headRef.hash :: hs) [] 0 hall
    rw [List.append_nil] at this
    rw [this]
    simp only [deriveLoop, ShortenSha_hash]
  · intro hl
    rw [collectTags_eq_referenceTagMap]
    exact referenceTagMap_lightweight gv.repo refs hl

/-- The fixture shape `relativeTag`: HEAD two commits ahead of tag `1` gives
`1-2-` and the short hash of HEAD. -/
theorem GetVersion_git_describe_witness :
    relativeTagRepo.GetVersion = .ret "1-2-fffffff" none := by
  have h := (GetVersion_git_describe relativeTagRepo
    [⟨.HashReference, hashOfByte 0x11, "1"⟩]
    ⟨.SymbolicReference, hashOfByte 0xff, "master"⟩
    [hashOfByte 0x97, hashOfByte 0x11] rfl rfl rfl rfl).2.1 2 (hashOfByte 0x11) "1"
    (by decide) rfl (by decide)
    (by
      intro i h hi hget
      interval_cases i
      · cases hget; decide
      · cases hget; decide)
  rw [h]
  decide

/-- C1 (counterexample): in `annotatedTagRepo` the repository's tag mapping sends the
HEAD commit to the tag `2`, yet `GetVersion` returns the bare short hash of HEAD and
not the tag name. -/
theorem GetVersion_misses_annotated_tag :
    commitTagMap annotatedTagRepo.repo [⟨.HashReference, hashOfByte 0xaa, "2"⟩]
      (hashOfByte 0xee) = some "2" ∧
    annotatedTagRepo.GetVersion = .ret "eeeeeee" none ∧
    annotatedTagRepo.GetVersion ≠ .ret "2" none := by
  refine ⟨by decide, by decide, by decide⟩

/-- C7 (evaluation of the code): HEAD is untagged and the second call of `Next`
fails with an error other than end-of-history, yet `GetVersion` returns the bare
short hash of HEAD and a nil error. -/
theorem GetVersion_discards_iteration_error :
    brokenHistoryRepo.GetVersion = .ret "4b4b4b4" none := by
  decide

end versioning

/-! ## Theorems: the GitHub versioning and the publishing stage -/

namespace github

/-- C6 (amended): for a CI configuration with non-empty `RefType` and `RefName` and
a `Sha` of at least 7 bytes, `NewVersioning` yields a versioning whose `GetVersion`
returns `RefName` verbatim and no error for ref type `tag`; `RefName`, a dash and
the first 7 bytes of `Sha` and no error for ref type `branch`, which are the first
7 characters of `Sha` when those are ASCII; and for every other ref type the empty
version with the error `unsupported ref type: <type>`. -/
theorem GetVersion_by_ref_type (c : Config) (hT : c.RefType ≠ "") (hN : c.RefName ≠ "")
    (hS : 7 ≤ (GoString.ofString c.Sha).bytes.length) :
    ∃ v, NewVersioning (some c) = some v ∧
      (c.RefType = "tag" → v.GetVersion = .ret (GoString.ofString c.RefName) none) ∧
      (c.RefType = "branch" →
        v.GetVersion =
          .ret (GoString.ofString (c.RefName ++ "-") ++
            GoString.mk ((GoString.ofString c.Sha).bytes.take 7)) none) ∧
      (c.RefType = "branch" → 7 ≤ c.Sha.length →
        (∀ ch ∈ c.Sha.data.take 7, ch.toNat < 128) →
        v.GetVersion =
          .ret (GoString.ofString (c.RefName ++ "-" ++ String.mk (c.Sha.data.take 7))) none) ∧
      (c.RefType ≠ "tag" → c.RefType ≠ "branch" →
        v.GetVersion =
          .ret (GoString.ofString "") (some ⟨"unsupported ref type: " ++ c.RefType⟩)) := by
  have hS2 : c.Sha ≠ "" := by
    intro h
    rw [h] at hS
    exact absurd hS (by decide)
  have hne : ("branch" : String) ≠ "tag" := by decide
  have hbranch : c.RefType = "branch" →
      Versioning.GetVersion ⟨c.RefType, c.RefName, c.Sha⟩ =
        .ret (GoString.ofString (c.RefName ++ "-") ++
          GoString.mk ((GoString.ofString c.Sha).bytes.take 7)) none := by
    intro h
    simp only [Versioning.GetVersion, h, hne, if_false, if_true, versioning.ShortenSha,
      if_pos hS]
  refine ⟨⟨c.RefType, c.RefName, c.Sha⟩, ?_, ?_, hbranch, ?_, ?_⟩
  · simp [NewVersioning, hT, hN, hS2]
  · intro h
    simp [Versioning.GetVersion, h]
  · intro h hlen hascii
    have ht := versioning.take7_bytes_ascii c.Sha.data hlen hascii
    have hb : GoString.mk ((GoString.ofString c.Sha).bytes.take 7) =
        GoString.ofString (String.mk (c.Sha.data.take 7)) := by
      show GoString.mk ((c.Sha.data.flatMap utf8EncodeChar).take 7) = GoString.mk _
      rw [ht]
    rw [hbranch h, hb, ← versioning.ofString_append]
  · intro h1 h2
    simp [Versioning.GetVersion, h1, h2]

/-- The branch configuration `branchConfig` meets the side conditions; its `Sha` is
hexadecimal, so the version ends in its first 7 characters. -/
theorem GetVersion_by_ref_type_witness :
    ∃ v, NewVersioning (some branchConfig) = some v ∧
      v.GetVersion = .ret "main-ff97468" none := by
  obtain ⟨v, hv, _, _, h, _⟩ :=
    GetVersion_by_ref_type branchConfig (by decide) (by decide) (by decide)
  exact ⟨v, hv, (h (by decide) (by decide) (by decide)).trans (by decide)⟩

/-- C6 (counterexample): `nonAsciiShaConfig` has non-empty `RefType` and `RefName` and
a `Sha` of 7 characters; for its ref type `branch`, `GetVersion` returns `main-éééa`,
ending in the first 7 bytes of `Sha`, and not `main-` followed by the first 7
characters of `Sha`. -/
theorem GetVersion_branch_slices_bytes :
    nonAsciiShaConfig.RefType ≠ "" ∧ nonAsciiShaConfig.RefName ≠ "" ∧
    7 ≤ nonAsciiShaConfig.Sha.length ∧
    NewVersioning (some nonAsciiShaConfig) = some ⟨"branch", "main", "éééaXYZ"⟩ ∧
    Versioning.GetVersion ⟨"branch", "main", "éééaXYZ"⟩ = .ret "main-éééa" none ∧
    Versioning.GetVersion ⟨"branch", "main", "éééaXYZ"⟩ ≠
      .ret (GoString.ofString (nonAsciiShaConfig.RefName ++ "-" ++
        String.mk (nonAsciiShaConfig.Sha.data.take 7))) none := by
  refine ⟨by decide, by decide, by decide, by decide, by decide, by decide⟩

end github

namespace cmd

/-- C10 (evaluation of the code): with a loaded configuration that has no token,
`NewPublisher` returns the nil pointer, the interface value `main` tests is not
nil, and `main` calls `Publish` on the nil pointer, which panics; and for no
loaded configuration at all does the stage take the skipping branch. -/
theorem mainPublish_calls_Publish_on_nil_pointer :
    github.NewPublisher github.branchConfig = none ∧
    mainPublish (fun _ _ _ => none) (some github.branchConfig)
        ["out/app_1.0.0_linux_amd64.tar.gz"] "1.0.0" =
      .panicked "invalid memory address or nil pointer dereference" ∧
    (∀ release config paths version,
      mainPublish release (some config) paths version ≠ .skipped) := by
  refine ⟨by decide, by decide, ?_⟩
  intro release config paths version
  simp only [mainPublish, PublisherValue.isNonNil, if_true]
  cases github.Publisher.Publish release (github.NewPublisher config) paths version with
  | ret v err => cases err <;> simp
  | panic msg => simp

end cmd

/-! ## Theorems: the archiver -/

namespace builder

theorem writeFileToTar_copies (env : ArchiveEnv) (a : Archiver) (file : String)
    (h : env.copies file) : a.writeFileToTar env file = .ret () none := by
  obtain ⟨h1, h2, h3, h4, _, _⟩ := h
  simp [Archiver.writeFileToTar, h1, h2, h3, h4]

theorem writeFileToZip_copies (env : ArchiveEnv) (a : Archiver) (file : String)
    (h : env.copies file) : a.writeFileToZip env file = .ret () none := by
  obtain ⟨h1, _, _, _, h5, h6⟩ := h
  simp [Archiver.writeFileToZip, h1, h5, h6]

/-- C9: `archive` creates exactly one file, at `path.Join` of `outDir` and
`{project}_{version}_{os}_{arch}{variant}.{ext}`, where `ext` is `zip` when the
target OS is exactly `windows` and `tar.gz` for every other OS; when that file can
be created and the built executable, and `README.md` if it exists, can be copied
into it, `archive` returns without error the result naming that path for that
target; and it never returns any other result. -/
theorem archive_creates_formed_filename (env : ArchiveEnv) (a : Archiver)
    (buildResult : BuildResult) :
    (a.archive env buildResult).created = [archivePath env a buildResult.Target] ∧
    (env.create (archivePath env a buildResult.Target) = none →
      env.copies buildResult.BuiltExecutable →
      (env.readmeExists = true → env.copies "README.md") →
      (a.archive env buildResult).result =
        .ret (some ⟨buildResult.Target, archivePath env a buildResult.Target⟩) none) ∧
    (∀ r err, (a.archive env buildResult).result = .ret (some r) err →
      r = ⟨buildResult.Target, archivePath env a buildResult.Target⟩ ∧ err = none) := by
  by_cases hw : buildResult.Target.Os = "windows"
  · have hp : archivePath env a buildResult.Target = a.formFilename env buildResult "zip" := by
      simp [archivePath, Archiver.formFilename, hw]
    rw [hp]
    refine ⟨?_, ?_, ?_⟩
    · simp only [Archiver.archive, hw, if_true, Archiver.archiveZip]
      repeat' split
      all_goals rfl
    · intro hc he hr
      simp only [Archiver.archive, hw, if_true, Archiver.archiveZip, hc,
        writeFileToZip_copies env a _ he]
      cases hre : env.readmeExists
      · simp only [Bool.false_eq_true, if_false]
      · simp only [if_true, writeFileToZip_copies env a _ (hr hre)]
    · intro r err
      simp only [Archiver.archive, hw, if_true, Archiver.archiveZip]
      repeat' split
      all_goals
        intro h
        dsimp only at h
        first
          | (cases h; exact ⟨rfl, rfl⟩)
          | cases h
  · have hp : archivePath env a buildResult.Target =
        a.formFilename env buildResult "tar.gz" := by
      simp [archivePath, Archiver.formFilename, hw]
    rw [hp]
    refine ⟨?_, ?_, ?_⟩
    · simp only [Archiver.archive, hw, if_false, Archiver.archiveTarGz]
      repeat' split
      all_goals rfl
    · intro hc he hr
      simp only [Archiver.archive, hw, if_false, Archiver.archiveTarGz, hc,
        writeFileToTar_copies env a _ he]
      cases hre : env.readmeExists
      · simp only [Bool.false_eq_true, if_false]
      · simp only [if_true, writeFileToTar_copies env a _ (hr hre)]
    · intro r err
      simp only [Archiver.archive, hw, if_false, Archiver.archiveTarGz]
      repeat' split
      all_goals
        intro h
        dsimp only at h
        first
          | (cases h; exact ⟨rfl, rfl⟩)
          | cases h

/-- In `plainArchiveEnv` the archive of a `windows` build is created as a `.zip` at
the formed path and returned. -/
theorem archive_creates_formed_filename_witness :
    (Archiver.archive plainArchiveEnv ⟨"dist", "app", "1.0.0"⟩ windowsBuildResult).result =
      .ret (some ⟨⟨"windows", "amd64", ""⟩, "dist/app_1.0.0_windows_amd64.zip"⟩) none :=
  (archive_creates_formed_filename plainArchiveEnv ⟨"dist", "app", "1.0.0"⟩
    windowsBuildResult).2.1 (by decide) (by decide) (by decide)

end builder

namespace cmd

/-- C11 (evaluation of the code): for a successful `linux` build followed by a
failed `windows` build, `ArchiveBuildResults` returns without error the list whose
second entry is the nil pointer, and the loop of `main` that reads
`archiveResult.Archive` from each entry panics; whatever the environment and the
archiver, a single failed build result yields the one-entry list holding nil, not
the empty list. -/
theorem ArchiveBuildResults_leaves_nil_entry :
    (builder.Archiver.ArchiveBuildResults builder.plainArchiveEnv ⟨"dist", "app", "1.0.0"⟩
        builder.mixedBuildResults =
      .ret (some [some ⟨⟨"linux", "amd64", ""⟩, "dist/app_1.0.0_linux_amd64.tar.gz"⟩, none])
        none) ∧
    mainArchive builder.plainArchiveEnv ⟨"dist"⟩ "" "app" "v1.0.0"
        builder.mixedBuildResults =
      .panicked "invalid memory address or nil pointer dereference" ∧
    (∀ (env : builder.ArchiveEnv) (a : builder.Archiver) (target : builder.Target)
        (err : GoError) (exe : String),
      a.ArchiveBuildResults env [⟨target, some err, exe⟩] = .ret (some [none]) none) := by
  refine ⟨by decide, by decide, ?_⟩
  intro env a target err exe
  simp [builder.Archiver.ArchiveBuildResults, builder.archiveBuildResultsLoop]

end cmd

/-! ## Theorems: `ParsePlatforms` -/

namespace builder

theorem lazyLoop_prefix (k : CharClass) (cont : MState → Option MState) (r : MState)
    (caps : List (Nat × Nat × Nat)) (rest : List Char) :
    ∀ (p : List Char) (pos : Nat), p ≠ [] → (∀ c ∈ p, k.test c = true) →
      (∀ p1 p2 : List Char, p1 ≠ [] → p2 ≠ [] → p = p1 ++ p2 →
        cont ⟨pos + p1.length, p2 ++ rest, caps⟩ = none) →
      cont ⟨pos + p.length, rest, caps⟩ = some r →
      lazyLoop k cont pos (p ++ rest) caps = some r
  | [], _, h, _, _, _ => absurd rfl h
  | [c], pos, _, hk, _, hend => by
    have hc : k.test c = true := hk c (List.mem_singleton_self c)
    have hend2 : cont ⟨pos + 1, rest, caps⟩ = some r := hend
    rw [List.singleton_append, lazyLoop]
    simp only [hc, if_true, hend2]
  | c :: d :: p, pos, _, hk, hmid, hend => by
    have hc : k.test c = true := hk c (List.mem_cons_self _ _)
    have h1 : cont ⟨pos + 1, (d :: p) ++ rest, caps⟩ = none :=
      hmid [c] (d :: p) (by simp) (by simp) rfl
    have ih := lazyLoop_prefix k cont r caps rest (d :: p) (pos + 1) (by simp)
      (fun x hx => hk x (List.mem_cons_of_mem _ hx))
      (fun p1 p2 h1 h2 he => by
        have := hmid (c :: p1) p2 (by simp) h2 (by rw [he]; rfl)
        rw [List.length_cons] at this
        rw [← this]
        congr 2
        omega)
      (by
        rw [← hend]
        congr 2
        simp only [List.length_cons]
        omega)
    rw [List.cons_append, lazyLoop]
    simp only [hc, if_true]
    rw [h1]
    exact ih

theorem greedyLoop_all (k : CharClass) (cont : MState → Option MState) (r : MState)
    (caps : List (Nat × Nat × Nat)) :
    ∀ (v : List Char) (pos : Nat), v ≠ [] → (∀ c ∈ v, k.test c = true) →
      cont ⟨pos + v.length, [], caps⟩ = some r →
      greedyLoop k cont pos v caps = some r
  | [], _, h, _, _ => absurd rfl h
  | [c], pos, _, hk, hend => by
    have hc : k.test c = true := hk c (List.mem_singleton_self c)
    have hend2 : cont ⟨pos + 1, [], caps⟩ = some r := hend
    rw [greedyLoop]
    simp only [hc, if_true, greedyLoop, hend2]
  | c :: d :: v, pos, _, hk, hend => by
    have hc : k.test c = true := hk c (List.mem_cons_self _ _)
    have ih := greedyLoop_all k cont r caps (d :: v) (pos + 1) (by simp)
      (fun x hx => hk x (List.mem_cons_of_mem _ hx))
      (by
        rw [← hend]
        congr 2
        simp only [List.length_cons]
        omega)
    rw [greedyLoop]
    simp only [hc, if_true]
    rw [ih]

theorem platformTail_mid (pos : Nat) (c : Char) (t : List Char)
    (caps : List (Nat × Nat × Nat)) (hc : c ≠ '/') :
    RE.run platformTail ⟨pos, c :: t, caps⟩ some = none := by
  simp [platformTail, RE.run, CharClass.test, hc]

theorem platformTail_end (pos : Nat) (caps : List (Nat × Nat × Nat)) :
    RE.run platformTail ⟨pos, [], caps⟩ some = some ⟨pos, [], caps⟩ := by
  simp [platformTail, RE.run]

theorem platformTail_variant (pos : Nat) (v : List Char) (caps : List (Nat × Nat × Nat))
    (hv : v ≠ []) (hnl : ∀ c ∈ v, c ≠ '\n') :
    RE.run platformTail ⟨pos, '/' :: v, caps⟩ some =
      some ⟨pos + 1 + v.length, [],
        (3, pos, pos + 1 + v.length) :: (4, pos + 1, pos + 1 + v.length) :: caps⟩ := by
  have hk : ∀ c ∈ v, CharClass.dot.test c = true := by
    intro c hc
    simp [CharClass.test, hnl c hc]
  simp only [platformTail, RE.run, CharClass.test, beq_self_eq_true, if_true]
  rw [greedyLoop_all CharClass.dot _
    ⟨pos + 1 + v.length, [],
      (3, pos, pos + 1 + v.length) :: (4, pos + 1, pos + 1 + v.length) :: caps⟩ caps v
    (pos + 1) hv hk (by simp)]

theorem run_seq (a b : RE) (s : MState) (cont : MState → Option MState) :
    RE.run (.seq a b) s cont = a.run s (fun s1 => b.run s1 cont) := by
  simp only [RE.run]

theorem run_group_plusLazy (i : Nat) (k : CharClass) (s : MState)
    (cont : MState → Option MState) :
    RE.run (.group i (.plusLazy k)) s cont =
      lazyLoop k (fun s1 => cont ⟨s1.pos, s1.rest, (i, s.pos, s1.pos) :: s1.caps⟩)
        s.pos s.rest s.caps := by
  simp only [RE.run]

theorem run_slash (pos : Nat) (t : List Char) (caps : List (Nat × Nat × Nat))
    (cont : MState → Option MState) :
    RE.run (.cls (.lit '/')) ⟨pos, '/' :: t, caps⟩ cont = cont ⟨pos + 1, t, caps⟩ := by
  simp [RE.run, CharClass.test]

theorem run_slash_other (pos : Nat) (c : Char) (t : List Char)
    (caps : List (Nat × Nat × Nat)) (cont : MState → Option MState) (hc : c ≠ '/') :
    RE.run (.cls (.lit '/')) ⟨pos, c :: t, caps⟩ cont = none := by
  simp [RE.run, CharClass.test, hc]

theorem platform_arch_stage (pos : Nat) (arch tail : List Char)
    (caps : List (Nat × Nat × Nat)) (r : MState) (ha : arch ≠ [])
    (hc : ∀ c ∈ arch, c ≠ '/' ∧ c ≠ '\n')
    (hend : RE.run platformTail
      ⟨pos + arch.length, tail, (2, pos, pos + arch.length) :: caps⟩ some = some r) :
    RE.run (.seq (.group 2 (.plusLazy .dot)) platformTail) ⟨pos, arch ++ tail, caps⟩ some
      = some r := by
  rw [run_seq, run_group_plusLazy]
  apply lazyLoop_prefix CharClass.dot _ r caps tail arch pos ha
  · intro c hmem
    simp [CharClass.test, (hc c hmem).2]
  · intro p1 p2 _ h2 he
    rcases p2 with _ | ⟨c, t⟩
    · exact absurd rfl h2
    · have hmem : c ∈ arch := by
        rw [he]
        simp
      exact platformTail_mid _ c _ _ (hc c hmem).1
  · exact hend

theorem platform_os_stage (os arch tail : List Char) (r : MState) (ho : os ≠ [])
    (ha : arch ≠ [])
    (hco : ∀ c ∈ os, c ≠ '/' ∧ c ≠ '\n') (hca : ∀ c ∈ arch, c ≠ '/' ∧ c ≠ '\n')
    (hend : RE.run platformTail
      ⟨0 + os.length + 1 + arch.length, tail,
        [(2, 0 + os.length + 1, 0 + os.length + 1 + arch.length), (1, 0, 0 + os.length)]⟩
        some = some r) :
    RE.run platformPattern ⟨0, os ++ '/' :: (arch ++ tail), []⟩ some = some r := by
  have hp : platformPattern = .seq (.group 1 (.plusLazy .dot)) platformAfterOs := rfl
  rw [hp, run_seq, run_group_plusLazy]
  apply lazyLoop_prefix CharClass.dot _ r [] ('/' :: (arch ++ tail)) os 0 ho
  · intro c hmem
    simp [CharClass.test, (hco c hmem).2]
  · intro p1 p2 _ h2 he
    rcases p2 with _ | ⟨c, t⟩
    · exact absurd rfl h2
    · have hmem : c ∈ os := by
        rw [he]
        simp
      have hpa : platformAfterOs =
          .seq (.cls (.lit '/')) (.seq (.group 2 (.plusLazy .dot)) platformTail) := rfl
      rw [hpa, run_seq]
      exact run_slash_other _ c _ _ _ (hco c hmem).1
  · have hpa : platformAfterOs =
        .seq (.cls (.lit '/')) (.seq (.group 2 (.plusLazy .dot)) platformTail) := rfl
    rw [hpa, run_seq, run_slash]
    exact platform_arch_stage (0 + os.length + 1) arch tail [(1, 0, 0 + os.length)] r ha hca
      hend

theorem searchFrom_of_run (re : RE) (pos : Nat) (text : List Char) (r : MState)
    (h : re.run ⟨pos, text, []⟩ some = some r) :
    re.searchFrom pos text = some (pos, r) := by
  cases text <;> simp [RE.searchFrom, h]

theorem drop_prefix_cons (p : List Char) (c : Char) (x : List Char) :
    (p ++ c :: x).drop (p.length + 1) = x := by
  induction p with
  | nil => rfl
  | cons a p ih => simp

theorem take_prefix (p x : List Char) : (p ++ x).take p.length = p := by
  induction p with
  | nil => simp
  | cons a p ih => simp

theorem captureText_cons (text : List Char) (caps : List (Nat × Nat × Nat)) (i j b e : Nat) :
    captureText text ((j, b, e) :: caps) i =
      if j = i then ⟨(text.drop b).take (e - b)⟩ else captureText text caps i := by
  by_cases h : j = i <;> simp [captureText, h]

theorem captureText_nil (text : List Char) (i : Nat) : captureText text [] i = "" := by
  simp [captureText]

/-- The submatches of `os/arch` . -/
theorem platform_submatch_two (o a : List Char) (ho : o ≠ []) (ha : a ≠ [])
    (hco : ∀ c ∈ o, c ≠ '/' ∧ c ≠ '\n') (hca : ∀ c ∈ a, c ≠ '/' ∧ c ≠ '\n') :
    ∃ whole g3, platformPattern.FindStringSubmatch 4 ⟨o ++ '/' :: a⟩ =
      [whole, ⟨o⟩, ⟨a⟩, g3, ""] := by
  have hrun := platform_os_stage o a [] _ ho ha hco hca (platformTail_end _ _)
  rw [List.append_nil] at hrun
  have hs := searchFrom_of_run _ _ _ _ hrun
  have hr : List.range 4 = [0, 1, 2, 3] := by decide
  rw [RE.FindStringSubmatch]
  simp only [hs, hr, List.map_cons, List.map_nil]
  simp only [captureText_cons, captureText_nil, if_true, if_false,
    Nat.reduceEqDiff]
  have e1 : 0 + o.length - 0 = o.length := by omega
  have e2 : 0 + o.length + 1 + a.length - (0 + o.length + 1) = a.length := by omega
  have e3 : 0 + o.length + 1 = o.length + 1 := by omega
  rw [e1, e2, e3, List.drop_zero, take_prefix, drop_prefix_cons]
  have e4 : a.take a.length = a := List.take_length a
  rw [e4]
  exact ⟨_, _, rfl⟩

/-- The submatches of `os/arch/variant` . -/
theorem platform_submatch_three (o a v : List Char) (ho : o ≠ []) (ha : a ≠ [])
    (hv : v ≠ [])
    (hco : ∀ c ∈ o, c ≠ '/' ∧ c ≠ '\n') (hca : ∀ c ∈ a, c ≠ '/' ∧ c ≠ '\n')
    (hcv : ∀ c ∈ v, c ≠ '\n') :
    ∃ whole g3, platformPattern.FindStringSubmatch 4 ⟨o ++ '/' :: (a ++ '/' :: v)⟩ =
      [whole, ⟨o⟩, ⟨a⟩, g3, ⟨v⟩] := by
  have hrun := platform_os_stage o a ('/' :: v) _ ho ha hco hca
    (platformTail_variant _ _ _ hv hcv)
  have hs := searchFrom_of_run _ _ _ _ hrun
  have hr : List.range 4 = [0, 1, 2, 3] := by decide
  rw [RE.FindStringSubmatch]
  simp only [hs, hr, List.map_cons, List.map_nil]
  simp only [captureText_cons, captureText_nil, if_true, if_false,
    Nat.reduceEqDiff]
  have e1 : 0 + o.length - 0 = o.length := by omega
  have e2 : 0 + o.length + 1 + a.length - (0 + o.length + 1) = a.length := by omega
  have e3 : 0 + o.length + 1 = o.length + 1 := by omega
  have e4 : 0 + o.length + 1 + a.length + 1 + v.length - (0 + o.length + 1 + a.length + 1)
      = v.length := by omega
  have e5 : (o ++ '/' :: (a ++ '/' :: v)).drop (0 + o.length + 1 + a.length + 1) = v := by
    have h1 : o ++ '/' :: (a ++ '/' :: v) = (o ++ '/' :: a) ++ '/' :: v := by simp
    have h2 : 0 + o.length + 1 + a.length = (o ++ '/' :: a).length := by
      simp only [List.length_append, List.length_cons]
      omega
    rw [h1, h2]
    exact drop_prefix_cons _ _ _
  rw [e1, e2, e4, e5, e3, List.drop_zero, take_prefix, drop_prefix_cons, take_prefix]
  have e6 : v.take v.length = v := List.take_length v
  rw [e6]
  exact ⟨_, _, rfl⟩

theorem platform_submatch (t : Target) (h : t.wellFormed) :
    ∃ whole g3, platformPattern.FindStringSubmatch 4 t.platform =
      [whole, t.Os, t.Arch, g3, t.Variant] := by
  obtain ⟨hos, harch, hco, hca, hcv⟩ := h
  have ho : t.Os.data ≠ [] := fun he => hos (String.ext he)
  have ha : t.Arch.data ≠ [] := fun he => harch (String.ext he)
  by_cases hv : t.Variant = ""
  · have htext : t.platform = ⟨t.Os.data ++ '/' :: t.Arch.data⟩ := by
      apply String.ext
      simp [Target.platform, hv]
    rw [htext, hv]
    exact platform_submatch_two _ _ ho ha hco hca
  · have hvd : t.Variant.data ≠ [] := fun he => hv (String.ext he)
    have htext : t.platform = ⟨t.Os.data ++ '/' :: (t.Arch.data ++ '/' :: t.Variant.data)⟩ := by
      apply String.ext
      simp [Target.platform, hv]
    rw [htext]
    exact platform_submatch_three _ _ _ ho ha hvd hco hca hcv

theorem parsePlatformsLoop_wellFormed (ts : List Target) (h : ∀ t ∈ ts, t.wellFormed)
    (acc : List Target) :
    parsePlatformsLoop (ts.map Target.platform) acc = .ret (some (acc ++ ts)) none := by
  induction ts generalizing acc with
  | nil => simp [parsePlatformsLoop]
  | cons t ts ih =>
    obtain ⟨whole, g3, hm⟩ := platform_submatch t (h t (List.mem_cons_self _ _))
    have ih2 := ih (fun x hx => h x (List.mem_cons_of_mem _ hx)) (acc ++ [t])
    rw [List.map_cons, parsePlatformsLoop, hm]
    simp only []
    rw [ih2, List.append_assoc]
    rfl

/-- C4: for every list of platform strings of the form `os/arch` or
`os/arch/variant` (OS and architecture non-empty and free of `/`, no line feed
anywhere), `ParsePlatforms` returns without error the targets `{os, arch, variant}`
in input order, one per string, with empty `Variant` for the two-part form; and the
empty list yields the empty list. -/
theorem ParsePlatforms_wellFormed (ts : List Target) (h : ∀ t ∈ ts, t.wellFormed) :
    ParsePlatforms (ts.map Target.platform) = .ret (some ts) none ∧
    ParsePlatforms [] = .ret (some []) none := by
  refine ⟨?_, rfl⟩
  have := parsePlatformsLoop_wellFormed ts h []
  simpa [ParsePlatforms] using this

/-- The three `sampleTargets` are well formed and parse back from their platform
strings. -/
theorem ParsePlatforms_wellFormed_witness :
    ParsePlatforms (sampleTargets.map Target.platform) = .ret (some sampleTargets) none ∧
    ParsePlatforms [] = .ret (some []) none :=
  ParsePlatforms_wellFormed sampleTargets (by decide)

/-- C5 (evaluation of the code): `ParsePlatforms` accepts `linux/arm/`, whose second
`/` is followed by an empty variant, as the target with architecture `arm/`; it also
accepts `/linux/amd64` (empty OS) and `linux//v7` (empty architecture). -/
theorem ParsePlatforms_accepts_malformed :
    ParsePlatforms ["linux/arm/"] = .ret (some [⟨"linux", "arm/", ""⟩]) none ∧
    ParsePlatforms ["/linux/amd64"] = .ret (some [⟨"/linux", "amd64", ""⟩]) none ∧
    ParsePlatforms ["linux//v7"] = .ret (some [⟨"linux", "/v7", ""⟩]) none := by
  refine ⟨by decide, by decide, by decide⟩

/-! ## Theorems: `Build` -/

/-- C2 (evaluation of the code): one target, one worker.  After
`workerFirstSchedule` the worker has pulled the target, its build has returned and
its result is in `targetResultsChan`; both the result case and the `workersDone`
case of the collecting `select` can proceed.  When the `select` takes the
`workersDone` case the loop ends and `Build` returns the empty result list with no
error, the result still in the channel. -/
theorem Build_returns_with_result_uncollected :
    (Build.run sampleBuildEnv sampleConfig [⟨"linux", "amd64", ""⟩] "1.0.0"
        (workerFirstSchedule ++ [.orchRecvResult])).isSome = true ∧
    (Build.run sampleBuildEnv sampleConfig [⟨"linux", "amd64", ""⟩] "1.0.0"
        (workerFirstSchedule ++ [.orchRecvDone, .orchReturn])).map
      (fun s => (s.orch, s.invoked, s.pushed, s.targetResultsChan)) =
    some (.returned (some []) none,
      [⟨"linux", "amd64", ""⟩],
      [⟨⟨"linux", "amd64", ""⟩, none, "out/linux_amd64/app"⟩],
      [⟨⟨"linux", "amd64", ""⟩, none, "out/linux_amd64/app"⟩]) := by
  refine ⟨by decide, by decide⟩

/-- C3 (evaluation of the code): three targets, two workers, the first target
fails.  After `cancelSchedule` the failed result has been handled and `jobsCtx` is
cancelled, the third target is still in the job queue and has not been built.  Both
cases of the second worker's `select` can proceed; when it takes the job case,
`buildTarget` is called for the third target. -/
theorem doBuild_pulls_job_after_cancellation :
    (Build.run sampleBuildEnv twoWorkerConfig failFastTargets "1.0.0" cancelSchedule).map
      (fun s => (s.jobsCtxDone, s.results, s.jobs, s.invoked)) =
    some (true,
      [⟨⟨"windows", "amd64", ""⟩, some ⟨"exit status 1"⟩, ""⟩],
      [⟨"darwin", "arm64", ""⟩],
      [⟨"windows", "amd64", ""⟩, ⟨"linux", "amd64", ""⟩]) ∧
    (Build.run sampleBuildEnv twoWorkerConfig failFastTargets "1.0.0"
        (cancelSchedule ++ [.workerCtxDone 1])).isSome = true ∧
    (Build.run sampleBuildEnv twoWorkerConfig failFastTargets "1.0.0"
        (cancelSchedule ++ [.workerRecvJob 1])).map
      (fun s => (s.jobsCtxDone, s.workers, s.invoked)) =
    some (true,
      [.returning, .building ⟨"darwin", "arm64", ""⟩],
      [⟨"windows", "amd64", ""⟩, ⟨"linux", "amd64", ""⟩, ⟨"darwin", "arm64", ""⟩]) := by
  refine ⟨by decide, by decide, by decide⟩

end builder

end MBuild
